import Mathlib

/-!
Verification development for the nxs-backup orchestration core.

Shallow embedding of the SMB storage backend rotation and delivery logic
(modules/storage/smb/smb.go), of the job runner loop shared by the
mongodump and psql_physical source adapters (DoBackup), and of the
psql_physical Init validation.  Mutating remote-share calls are modelled as
explicit operation traces; external outcomes (whether a given share call
fails) are an oracle parameter.
-/

namespace NxsBackup

/-- A directory entry as returned by `share.ReadDir` in smb.go: name and
modification time (mtime as an abstract integer instant). -/
structure FInfo where
  name : String
  mtime : Int
deriving Repr, DecidableEq

/-- Sorting of `ReadDir` results by modification time, ascending — embeds
`sort.Slice(smbFiles, func(i, j) { return smbFiles[i].ModTime().Before(...) })`
(smb.go lines 236-238). -/
def sortByMtime (fs : List FInfo) : List FInfo :=
  List.insertionSort (fun a b => a.mtime ≤ b.mtime) fs

instance : IsTotal FInfo (fun a b => a.mtime ≤ b.mtime) :=
  ⟨fun a b => le_total a.mtime b.mtime⟩

instance : IsTrans FInfo (fun a b => a.mtime ≤ b.mtime) :=
  ⟨fun _ _ _ hab hbc => le_trans hab hbc⟩

/-- Count-mode deletion-candidate selection of `deleteDescBackup`
(smb.go lines 235-247): sort ascending by mtime, decrement the retention
count unless the job is a safety backup, and pick the oldest
`len - retentionCount` entries as deletion candidates. -/
def descCountCandidates (safety : Bool) (retentionCount : Nat)
    (files : List FInfo) : List FInfo :=
  let sorted := sortByMtime files
  let rc : Int := (retentionCount : Int) - (if safety then 0 else 1)
  if rc ≤ (sorted.length : Int) then
    sorted.take (((sorted.length : Int) - rc).toNat)
  else
    []

/-- Concrete three-entry bucket listing with distinct ascending mtimes,
used to evaluate the count-mode selection. -/
def exBucket3 : List FInfo := [⟨"f1", 1⟩, ⟨"f2", 2⟩, ⟨"f3", 3⟩]

/-- Splits a character list at every occurrence of `sep` (used to model Go
path component handling and `strings.Split`). -/
def chSplit (sep : Char) : List Char → List (List Char)
  | [] => [[]]
  | c :: cs =>
    match chSplit sep cs with
    | [] => [[]]
    | g :: gs => if c = sep then [] :: g :: gs else (c :: g) :: gs

/-- Path components of a slash path, cleaned of empty and `.` parts (the
inputs in rotation are `path.Join` outputs, already clean). -/
def pathParts (p : String) : List String :=
  ((chSplit '/' p.data).map (fun cs => String.mk cs)).filter
    (fun s => s ≠ "" ∧ s ≠ ".")

/-- Whether a slash path is absolute. -/
def isAbs (p : String) : Bool :=
  match p.data with
  | '/' :: _ => true
  | _ => false

/-- Go `filepath.Dir` on clean slash paths: all components but the last. -/
def pathDir (p : String) : String :=
  let parts := pathParts p
  if parts.length ≤ 1 then
    if isAbs p then "/" else "."
  else
    (if isAbs p then "/" else "") ++ String.intercalate "/" parts.dropLast

/-- Strips the longest common component prefix of two component lists. -/
def dropCommonParts : List String → List String → List String × List String
  | a :: as, b :: bs =>
    if a = b then dropCommonParts as bs else (a :: as, b :: bs)
  | as, bs => (as, bs)

/-- Go `filepath.Rel(base, targ)` on clean paths without `..` components:
walk up out of the remaining base components, then down into the target. -/
def goRel (base targ : String) : String :=
  let (bs, ts) := dropCommonParts (pathParts base) (pathParts targ)
  let comps := bs.map (fun _ => "..") ++ ts
  if comps = [] then "." else String.intercalate "/" comps

/-- Remote-share mutations issued by rotation in smb.go: `s.moveFile`
(lines 458-466), `s.share.Remove`, `s.share.Symlink`, `s.share.RemoveAll`. -/
inductive MOp where
  | move (src dst : String)
  | remove (p : String)
  | symlink (target linkPath : String)
  | removeAll (p : String)
deriving Repr, DecidableEq

/-- The `fileLinks` record of `deleteDescBackup` (smb.go lines 186-189):
the weekly and daily symlink paths pointing at a file; `""` means none. -/
structure FileLinks where
  wLink : String
  dLink : String
deriving Repr, DecidableEq

/-- Result of processing one deletion candidate: the share operations
attempted in order, the failed operations accumulated into the
multi-error, and whether the loop was aborted by `break`. -/
structure RecStep where
  ops : List MOp
  errs : List MOp
  brk : Bool
deriving Repr, DecidableEq

/-- One iteration of the reconciliation loop of `deleteDescBackup`
(smb.go lines 273-323) for candidate `file` with incoming links `fl`.
`toDel` is membership in `filesToDeleteMap`; `fails` tells whether a given
share operation fails (outcomes of the remote calls are external).  Mirrors
the Go control flow: a surviving weekly link promotes the file by a move and
rewrites a surviving daily link to a relative symlink (a failing remove of
the old daily link appends the error and breaks the whole loop, line 290);
a surviving daily link alone receives the file by a move; with no surviving
link the file is removed; `delFile`/`moved` flags as in the source. -/
def processCandidate (toDel : String → Bool) (fails : MOp → Bool)
    (file : String) (fl : FileLinks) : RecStep :=
  if fl.wLink ≠ "" ∧ toDel fl.wLink = false then
    let mv := MOp.move file fl.wLink
    let movErr := fails mv
    let st0 : RecStep := ⟨[mv], if movErr then [mv] else [], false⟩
    let stW : RecStep :=
      if toDel fl.dLink = false then
        let rm := MOp.remove fl.dLink
        if fails rm then ⟨st0.ops ++ [rm], st0.errs ++ [rm], true⟩
        else
          let ln := MOp.symlink (goRel (pathDir fl.dLink) fl.wLink) fl.dLink
          ⟨st0.ops ++ [rm, ln], st0.errs ++ (if fails ln then [ln] else []), false⟩
      else st0
    if stW.brk then stW
    else if movErr = true ∧ fl.dLink ≠ "" ∧ toDel fl.dLink = false then
      let mv2 := MOp.move file fl.dLink
      ⟨stW.ops ++ [mv2], stW.errs ++ (if fails mv2 then [mv2] else []), false⟩
    else stW
  else
    if fl.dLink ≠ "" ∧ toDel fl.dLink = false then
      let mv := MOp.move file fl.dLink
      ⟨[mv], if fails mv then [mv] else [], false⟩
    else
      let rm := MOp.remove file
      ⟨[rm], if fails rm then [rm] else [], false⟩

/-- The reconciliation loop `for file, fl := range filesToDeleteMap`
(smb.go line 273): processes candidates in the given iteration order,
concatenating operation traces and accumulated errors, and stops early
when an iteration breaks. -/
def reconcile (toDel : String → Bool) (fails : MOp → Bool) :
    List (String × FileLinks) → List MOp × List MOp
  | [] => ([], [])
  | (f, fl) :: rest =>
    let st := processCandidate toDel fails f fl
    if st.brk then (st.ops, st.errs)
    else
      let r := reconcile toDel fails rest
      (st.ops ++ r.1, st.errs ++ r.2)

/-- Key-membership test in `filesToDeleteMap`, derived from the candidate
association list. -/
def candKeys (cands : List (String × FileLinks)) : String → Bool :=
  fun p => (cands.map Prod.fst).contains p

/-- The whole deletion pass of `deleteDescBackup` over the accumulated
`filesToDeleteMap`, given as an association list in iteration order (Go map
iteration order is unspecified, so it is a parameter). -/
def deleteDescReconcile (cands : List (String × FileLinks))
    (fails : MOp → Bool) : List MOp × List MOp :=
  reconcile (candKeys cands) fails cands

/-- Oracle for executions in which every share operation succeeds. -/
def noFail : MOp → Bool := fun _ => false

/-- `errs.ErrorOrNil()` of go-multierror: nil when no error was
accumulated, the accumulated list otherwise. -/
def errorOrNil (errs : List MOp) : Option (List MOp) :=
  if errs.isEmpty then none else some errs

/-- Recognises the move mutation. -/
def isMove : MOp → Bool
  | .move _ _ => true
  | _ => false

/-- Recognises the removal mutations. -/
def isRemoveOp : MOp → Bool
  | .remove _ => true
  | .removeAll _ => true
  | _ => false

/-- Checks that no removal precedes a move in a mutation trace (the
accumulator records whether a removal has been seen). -/
def noRemoveThenMove : Bool → List MOp → Bool
  | _, [] => true
  | sawRm, op :: rest =>
    if isMove op then
      if sawRm then false else noRemoveThenMove sawRm rest
    else if isRemoveOp op then noRemoveThenMove true rest
    else noRemoveThenMove sawRm rest

/-- Two deletion candidates: the first is a promoted monthly file whose
daily-link rewrite will fail, the second has no incoming links. -/
def exCands4 : List (String × FileLinks) :=
  [("monthly/a", ⟨"weekly/w1", "daily/d1"⟩), ("monthly/b", ⟨"", ""⟩)]

/-- Oracle under which exactly the removal of the old daily symlink of the
first candidate of `exCands4` fails. -/
def exFails4 : MOp → Bool := fun op => op = MOp.remove "daily/d1"

/-- Two deletion candidates in an iteration order where a plain removal is
processed before a weekly promotion. -/
def exCands8 : List (String × FileLinks) :=
  [("monthly/a", ⟨"", ""⟩), ("monthly/b", ⟨"weekly/w1", "daily/d1"⟩)]

/-- Go `path.Join` of two clean path pieces. -/
def pathJoin2 (a b : String) : String :=
  if a = "" then b else if b = "" then a else a ++ "/" ++ b

/-- Remote share state: regular files and symlinks (path, target). -/
structure FS where
  files : List String
  links : List (String × String)
deriving Repr, DecidableEq

/-- Whether `q` equals `dir` or lies below it. -/
def isUnder (dir q : String) : Bool :=
  q = dir || (pathParts q).take (pathParts dir).length = pathParts dir

/-- Effect of one share mutation on remote state.  `move` is `s.moveFile`:
remove the destination, then rename the source onto it; `remove` unlinks
one path; `symlink` replaces the entry at the link path; `removeAll`
removes the whole subtree. -/
def applyOp (st : FS) (op : MOp) : FS :=
  match op with
  | .move src dst =>
      ⟨(if src ∈ st.files then [dst] else [])
          ++ st.files.filter (fun q => q ≠ src ∧ q ≠ dst),
       st.links.filter (fun l => l.1 ≠ dst ∧ l.1 ≠ src)⟩
  | .remove p =>
      ⟨st.files.filter (fun q => q ≠ p), st.links.filter (fun l => l.1 ≠ p)⟩
  | .symlink target linkPath =>
      ⟨st.files, (linkPath, target) :: st.links.filter (fun l => l.1 ≠ linkPath)⟩
  | .removeAll p =>
      ⟨st.files.filter (fun q => isUnder p q = false),
       st.links.filter (fun l => isUnder p l.1 = false)⟩

/-- Applies a mutation trace to remote state, in order. -/
def applyOps (st : FS) (ops : List MOp) : FS := ops.foldl applyOp st

/-- Year-directory and cutoff-month selection of `deleteIncBackup`
(smb.go lines 340-349): `lastMonth := moy - months`; while it is not
positive, operate on the previous year's directory with `lastMonth + 12`. -/
def incYearSel (moy months : Int) (year prevYear : String) : String × Int :=
  let lastMonth := moy - months
  if lastMonth > 0 then (year, lastMonth) else (prevYear, lastMonth + 12)

/-- Whether a character list starts with `month_` followed by two digits. -/
def monthPatAt : List Char → Bool
  | 'm' :: 'o' :: 'n' :: 't' :: 'h' :: '_' :: d1 :: d2 :: _ =>
      d1.isDigit && d2.isDigit
  | _ => false

/-- Unanchored scan for the `month_` pattern, as `regexp.MatchString` with
the pattern of smb.go line 358 does. -/
def monthPatSub : List Char → Bool
  | [] => false
  | c :: cs => monthPatAt (c :: cs) || monthPatSub cs

/-- `regexp.MustCompile("month_\d\d").MatchString(dirName)`. -/
def matchesMonthDir (s : String) : Bool := monthPatSub s.data

/-- Numeric value of a digit string. -/
def digitsVal (ds : List Char) : Nat :=
  ds.foldl (fun acc c => acc * 10 + (c.toNat - 48)) 0

/-- Character-level body of `goAtoi`. -/
def goAtoiCh : List Char → Int
  | [] => 0
  | c :: cs =>
    if c = '-' then
      if cs ≠ [] ∧ cs.all Char.isDigit then -(digitsVal cs : Int) else 0
    else if c = '+' then
      if cs ≠ [] ∧ cs.all Char.isDigit then (digitsVal cs : Int) else 0
    else if (c :: cs).all Char.isDigit then (digitsVal (c :: cs) : Int)
    else 0

/-- Go `strconv.Atoi` with the error discarded, as at smb.go line 363:
the numeric value for a well-formed decimal literal, 0 otherwise. -/
def goAtoi (s : String) : Int := goAtoiCh s.data

/-- `strings.Split(dirName, "_")`. -/
def splitParts (sep : Char) (s : String) : List String :=
  (chSplit sep s.data).map (fun cs => String.mk cs)

/-- Month number extracted from a matching directory name (smb.go lines
362-363): second `_`-separated part, through `Atoi`. -/
def dirMonthOf (name : String) : Int :=
  goAtoi ((splitParts '_' name).getD 1 "")

/-- A well-formed month directory name `month_<d1><d2>`. -/
def monthName (d1 d2 : Char) : String :=
  String.mk ['m', 'o', 'n', 't', 'h', '_', d1, d2]

/-- The applicable year directory of incremental rotation. -/
def incBackupDir (backupPath ofsPart : String) (moy months : Int)
    (year prevYear : String) : String :=
  pathJoin2 (pathJoin2 backupPath ofsPart)
    (incYearSel moy months year prevYear).1

/-- `deleteIncBackup` (smb.go lines 328-378): with `full` the whole OFS
subtree is removed; otherwise every entry of the applicable year directory
matching `month_\d\d` whose parsed month is strictly below the cutoff is
removed recursively.  `dirs` is the `ReadDir` listing of the year
directory; each failing removal is accumulated. -/
def deleteIncBackup (backupPath ofsPart : String) (full : Bool)
    (moy months : Int) (year prevYear : String)
    (dirs : List String) (fails : MOp → Bool) : List MOp × List MOp :=
  if full then
    let op := MOp.removeAll (pathJoin2 backupPath ofsPart)
    ([op], if fails op then [op] else [])
  else
    let bakDir := incBackupDir backupPath ofsPart moy months year prevYear
    let lastMonth := (incYearSel moy months year prevYear).2
    let steps := dirs.filterMap (fun d =>
      if matchesMonthDir d ∧ dirMonthOf d < lastMonth then
        some (MOp.removeAll (pathJoin2 bakDir d))
      else none)
    (steps, steps.filter (fun op => fails op))

/-- `DeleteOldBackups` (smb.go lines 172-183): when rotation is disabled by
config, return nil immediately without touching the share; else dispatch by
job type to the incremental or descending pass (given here as the already
computed traces of those passes). -/
def DeleteOldBackups (rotateEnabled : Bool) (isIncFiles : Bool)
    (descPass incPass : List MOp × List MOp) : List MOp × List MOp :=
  if rotateEnabled = false then ([], [])
  else if isIncFiles then incPass else descPass

/-- Share operations issued by `DeliveryBackup` (smb.go lines 95-139):
directory creation, upload through `s.copy`, and symlink creation. -/
inductive DOp where
  | mkdirAll (dir : String)
  | upload (src dst : String)
  | symlinkOp (target linkPath : String)
deriving Repr, DecidableEq

/-- `s.copy` (smb.go lines 141-170): create the remote directory of the
destination, then stream the source file to the destination path. -/
def copyOps (srcPath dstPath : String) : List DOp :=
  [.mkdirAll (pathDir dstPath), .upload srcPath dstPath]

/-- `DeliveryBackup` upload sequence, given the destination paths and link
map computed by the path resolver (`GetIncBackupDstAndLinks` sets a
non-empty `mtdDstPath` exactly for incremental jobs).  Mirrors smb.go lines
112-136: when `mtdDstPath` is non-empty the `.inc` sidecar is copied first
— to `bakDstPath`, as the source does at line 113 — then the artifact is
copied to `bakDstPath`, then the symlinks are created. -/
def deliveryBackupOps (tmpBackupFile bakDstPath mtdDstPath : String)
    (links : List (String × String)) : List DOp :=
  (if mtdDstPath ≠ "" then copyOps (tmpBackupFile ++ ".inc") bakDstPath else [])
    ++ copyOps tmpBackupFile bakDstPath
    ++ links.flatMap (fun l => [.mkdirAll (pathDir l.1), .symlinkOp l.2 l.1])

/-- Accumulator step for the final uploaded content at path `p`: a later
upload to `p` overwrites an earlier one. -/
def upStep (p : String) (acc : Option String) (op : DOp) : Option String :=
  match op with
  | .upload src dst => if dst = p then some src else acc
  | _ => acc

/-- Source of the content present at path `p` after running `ops`. -/
def uploadedAt (ops : List DOp) (p : String) : Option String :=
  ops.foldl (upStep p) none

/-- Outcome of one target iteration of `DoBackup` (mongodump part_001
lines 245-301, psql_physical lines 207-263): the temp-dir creation fails,
the dump fails after `elapsedMs`, or the artifact is produced with the
given byte size. -/
inductive Outcome where
  | mkdirFail
  | dumpFail (elapsedMs : Int)
  | success (size : Nat) (elapsedMs : Int)
deriving Repr, DecidableEq

/-- One target of a `DoBackup` run with its external outcome. -/
structure TargetRun where
  ofs : String
  outcome : Outcome
deriving Repr, DecidableEq

/-- The per-target metric values written through `SetOfsMetrics`. -/
structure TMetrics where
  backupOk : Nat
  backupTimeMs : Int
  backupSize : Nat
  backupTimestamp : Int
  deliveryOk : Nat
  deliveryTimeMs : Int
deriving Repr, DecidableEq

/-- The zeroing write at the top of each target iteration, stamping the
start timestamp. -/
def initialMetrics (ts : Int) : TMetrics := ⟨0, 0, 0, ts, 0, 0⟩

/-- Final metric state of one target after its iteration: zeroed at entry;
a dump failure records only `BackupTime`; a produced artifact records
`BackupOk = 1`, `BackupTime` and `BackupSize` from `os.Stat`. -/
def targetMetrics (ts : Int) : Outcome → TMetrics
  | .mkdirFail => initialMetrics ts
  | .dumpFail e => { initialMetrics ts with backupTimeMs := e }
  | .success sz e =>
      { initialMetrics ts with backupOk := 1, backupTimeMs := e, backupSize := sz }

/-- Byte length of the produced temp artifact, absent when none was
produced. -/
def artifactSize : Outcome → Option Nat
  | .success sz _ => some sz
  | _ => none

/-- Observable events of a `DoBackup` run, with `deliveryCall` standing
for one invocation of `j.storages.Delivery`. -/
inductive JEv where
  | mkdirFailEv (ofs : String)
  | dumpFailEv (ofs : String)
  | dumpOk (ofs : String)
  | deliveryCall
deriving Repr, DecidableEq

/-- Events of one target iteration: failures skip to the next target via
`continue`; a produced artifact is followed immediately by a Delivery call
unless `deferredCopying` is set.  A Delivery failure only appends to the
multi-error and never changes the control flow, so it does not appear as a
separate event. -/
def targetEvents (deferred : Bool) (t : TargetRun) : List JEv :=
  match t.outcome with
  | .mkdirFail => [.mkdirFailEv t.ofs]
  | .dumpFail _ => [.dumpFailEv t.ofs]
  | .success _ _ => [.dumpOk t.ofs] ++ (if deferred then [] else [.deliveryCall])

/-- Whole-run event trace of `DoBackup`: the loop over targets, then the
single unconditional trailing `j.storages.Delivery` call. -/
def doBackupEvents (deferred : Bool) (targets : List TargetRun) : List JEv :=
  targets.flatMap (targetEvents deferred) ++ [.deliveryCall]

/-- Final per-OFS metric table of a `DoBackup` run. -/
def doBackupMetrics (ts : Int) (targets : List TargetRun) :
    List (String × TMetrics) :=
  targets.map (fun t => (t.ofs, targetMetrics ts t.outcome))

/-- Number of multi-error entries a target's outcome contributes. -/
def targetErrCount : Outcome → Nat
  | .success _ _ => 0
  | _ => 1

/-- Total number of multi-error entries of a run: one per failed target
plus the delivery failures. -/
def doBackupErrCount (targets : List TargetRun) (deliveryErrs : Nat) : Nat :=
  (targets.map (fun t => targetErrCount t.outcome)).sum + deliveryErrs

/-- Whether `needle` is an initial segment of `hay`. -/
def listHasPre : List Char → List Char → Bool
  | [], _ => true
  | _ :: _, [] => false
  | a :: as, b :: bs => a = b && listHasPre as bs

/-- Unanchored substring search, as Go `regexp.MatchString` on a literal
pattern. -/
def hasSub (needle : List Char) : List Char → Bool
  | [] => listHasPre needle []
  | c :: rest => listHasPre needle (c :: rest) || hasSub needle rest

/-- `regexp.MatchString("(-D|--pgdata=)", key)` of psql_physical Init
(line 99): the key contains `-D` or contains `--pgdata=`. -/
def matchPgdataKey (k : String) : Bool :=
  hasSub ("-D".data) k.data || hasSub ("--pgdata=".data) k.data

/-- One `sources` entry of a psql_physical job, with the external outcome
of its connect-and-ping probe. -/
structure PgSource where
  name : String
  extraKeys : List String
  connOk : Bool
  gzip : Bool
deriving Repr, DecidableEq

/-- One registered target of a successfully initialised psql_physical
job. -/
structure PgTarget where
  name : String
  extraKeys : List String
  gzip : Bool
deriving Repr, DecidableEq

/-- The source loop of psql_physical `Init` (lines 96-131): for each source
first reject any extra key matching the pgdata pattern, then fail on an
unreachable database, otherwise register the target; any failure puts the
whole Init at `(nil, error)`. -/
def psqlInitLoop : List PgSource → Option (List PgTarget)
  | [] => some []
  | src :: rest =>
    if src.extraKeys.any matchPgdataKey then none
    else if src.connOk = false then none
    else
      match psqlInitLoop rest with
      | none => none
      | some ts => some (⟨src.name, src.extraKeys, src.gzip⟩ :: ts)

/-- psql_physical `Init` (lines 66-134): `pg_basebackup`/`tar` probes, then
the source loop; `none` models the `(nil, error)` returns. -/
def psqlInit (probesOk : Bool) (sources : List PgSource) :
    Option (List PgTarget) :=
  if probesOk = false then none else psqlInitLoop sources

/-- The arguments `createTmpBackup` appends after the user's extra keys
(psql_physical lines 271-290): connection URL, the generated `--pgdata`,
the format flag, and the clamped `--max-rate` when a disk limit is set
(`units.KB = 1000`). -/
def pgGenArgs (connUrl tmpPath : String) (diskRateLimit : Int) : List String :=
  ["--dbname=" ++ connUrl, "--pgdata=" ++ tmpPath, "--format=plain"]
    ++ (if 0 < diskRateLimit then
          let mr0 := diskRateLimit / 1000
          let maxRate := if mr0 < 32 then (32 : Int)
            else if 1024 * 1000 < mr0 then 1024 * 1000 else mr0
          ["--max-rate=" ++ toString maxRate]
        else [])

/-- The full `pg_basebackup` command line of `createTmpBackup`: extra keys
first, then the generated arguments. -/
def pgBasebackupArgs (extraKeys : List String) (connUrl tmpPath : String)
    (diskRateLimit : Int) : List String :=
  extraKeys ++ pgGenArgs connUrl tmpPath diskRateLimit

theorem sortByMtime_perm (files : List FInfo) :
    (sortByMtime files).Perm files :=
  List.perm_insertionSort _ files

theorem sortByMtime_length (files : List FInfo) :
    (sortByMtime files).length = files.length :=
  List.length_insertionSort _ files

theorem sortByMtime_sorted (files : List FInfo) :
    (sortByMtime files).Sorted (fun a b => a.mtime ≤ b.mtime) :=
  List.sorted_insertionSort _ files

/-- C1 counterexample: on a bucket of three entries with count N = 2 and
safety off, the claim would make exactly one entry (the one beyond the two
newest) a deletion candidate; `deleteDescBackup` instead selects two
candidates, keeping only N - 1 = 1 entry. -/
theorem C1_count_counterexample :
    (descCountCandidates false 2 exBucket3).length ≠ 1 := by
  decide

/-- C1 (amended): in count mode with count N ≥ 1, `deleteDescBackup` keeps
the `N - 1` newest entries of the bucket (`N` when `safety_backup` is true),
and all older entries become deletion candidates: the candidates are the
oldest `len - keep` entries of the mtime-sorted listing, every candidate is
no newer than every kept entry, and candidates plus kept entries make up the
whole listing. -/
theorem C1_count_mode_keeps (safety : Bool) (N : Nat) (files : List FInfo)
    (hN : 1 ≤ N)
    (hlen : (if safety then N else N - 1) ≤ files.length) :
    (descCountCandidates safety N files).length
        = files.length - (if safety then N else N - 1) ∧
    descCountCandidates safety N files
        ++ (sortByMtime files).drop (files.length - (if safety then N else N - 1))
      = sortByMtime files ∧
    ∀ c ∈ descCountCandidates safety N files,
      ∀ r ∈ (sortByMtime files).drop (files.length - (if safety then N else N - 1)),
        c.mtime ≤ r.mtime := by
  have hslen : (sortByMtime files).length = files.length := sortByMtime_length files
  set keep : Nat := if safety then N else N - 1 with hkeep
  have hrc : ((N : Int) - (if safety then 0 else 1)) = (keep : Nat) := by
    rcases safety with _ | _
    · simp [hkeep]
      omega
    · simp [hkeep]
  have hcand : descCountCandidates safety N files
      = (sortByMtime files).take (files.length - keep) := by
    unfold descCountCandidates
    rw [hrc]
    rw [if_pos (by exact_mod_cast hslen ▸ (by exact_mod_cast hlen : (keep : Int) ≤ (files.length : Int)))]
    congr 1
    rw [hslen]
    omega
  refine ⟨?_, ?_, ?_⟩
  · rw [hcand, List.length_take, hslen]
    omega
  · rw [hcand, List.take_append_drop]
  · intro c hc r hr
    rw [hcand] at hc
    exact List.Sorted.rel_of_mem_take_of_mem_drop (sortByMtime_sorted files) hc hr

/-- Witness for `C1_count_mode_keeps` at safety = false, N = 2 on the
concrete three-entry bucket. -/
theorem C1_count_mode_keeps_witness :
    (descCountCandidates false 2 exBucket3).length = 3 - (2 - 1) ∧
    descCountCandidates false 2 exBucket3
        ++ (sortByMtime exBucket3).drop (3 - (2 - 1)) = sortByMtime exBucket3 ∧
    ∀ c ∈ descCountCandidates false 2 exBucket3,
      ∀ r ∈ (sortByMtime exBucket3).drop (3 - (2 - 1)), c.mtime ≤ r.mtime := by
  have h := C1_count_mode_keeps false 2 exBucket3 (by decide) (by decide)
  simpa using h

theorem processCandidate_brk_false (toDel : String → Bool) (fails : MOp → Bool)
    (file : String) (fl : FileLinks)
    (h : fl.wLink ≠ "" → toDel fl.wLink = false → toDel fl.dLink = false →
      fails (MOp.remove fl.dLink) = false) :
    (processCandidate toDel fails file fl).brk = false := by
  cases hwt : toDel fl.wLink <;> cases hdt : toDel fl.dLink <;>
    by_cases hw0 : fl.wLink = "" <;> by_cases hd0 : fl.dLink = "" <;>
    simp_all [processCandidate]
  all_goals try (split <;> simp_all)

theorem processCandidate_errs_filter (toDel : String → Bool) (fails : MOp → Bool)
    (file : String) (fl : FileLinks)
    (h : fl.wLink ≠ "" → toDel fl.wLink = false → toDel fl.dLink = false →
      fails (MOp.remove fl.dLink) = false) :
    (processCandidate toDel fails file fl).errs
      = (processCandidate toDel fails file fl).ops.filter (fun op => fails op) := by
  cases hwt : toDel fl.wLink <;> cases hdt : toDel fl.dLink <;>
    by_cases hw0 : fl.wLink = "" <;> by_cases hd0 : fl.dLink = "" <;>
    cases hmv : fails (MOp.move file fl.wLink) <;>
    simp_all [processCandidate, List.filter_cons, List.filter_nil]
  all_goals try (split <;> simp_all [List.filter_cons, List.filter_nil])

theorem reconcile_no_break (toDel : String → Bool) (fails : MOp → Bool)
    (l : List (String × FileLinks))
    (h : ∀ f fl, (f, fl) ∈ l →
      fl.wLink ≠ "" → toDel fl.wLink = false → toDel fl.dLink = false →
      fails (MOp.remove fl.dLink) = false) :
    reconcile toDel fails l
      = (l.flatMap (fun c => (processCandidate toDel fails c.1 c.2).ops),
         (l.flatMap (fun c => (processCandidate toDel fails c.1 c.2).ops)).filter
           (fun op => fails op)) := by
  induction l with
  | nil => simp [reconcile]
  | cons hd tl ih =>
    obtain ⟨f, fl⟩ := hd
    have hbrk : (processCandidate toDel fails f fl).brk = false :=
      processCandidate_brk_false toDel fails f fl (h f fl (by simp))
    have herrs := processCandidate_errs_filter toDel fails f fl (h f fl (by simp))
    have ihh := ih (fun f2 fl2 hm => h f2 fl2 (List.mem_cons_of_mem _ hm))
    simp only [reconcile, hbrk, if_neg Bool.false_ne_true, ihh]
    simp [herrs, List.flatMap_cons, List.filter_append]

/-- C2: disposition of every deletion candidate in an execution where the
share operations succeed: the target of a surviving weekly symlink is moved
to the weekly link's path (first operation) and is not removed; a surviving
daily symlink pointing at it is then rewritten to a relative symlink at the
new weekly location; with only a surviving daily symlink the candidate is
moved to the daily link's path; when both survive, the weekly link wins (no
move onto the daily path); with no surviving link the candidate is removed. -/
theorem C2_candidate_disposition (toDel : String → Bool) (file : String)
    (fl : FileLinks)
    (hdf : fl.dLink ≠ file) (hwd : fl.wLink ≠ fl.dLink) :
    ((fl.wLink ≠ "" ∧ toDel fl.wLink = false) →
      (processCandidate toDel noFail file fl).ops.head?
          = some (MOp.move file fl.wLink) ∧
      MOp.remove file ∉ (processCandidate toDel noFail file fl).ops ∧
      MOp.move file fl.dLink ∉ (processCandidate toDel noFail file fl).ops) ∧
    ((fl.wLink ≠ "" ∧ toDel fl.wLink = false ∧ fl.dLink ≠ "" ∧
        toDel fl.dLink = false) →
      MOp.symlink (goRel (pathDir fl.dLink) fl.wLink) fl.dLink
        ∈ (processCandidate toDel noFail file fl).ops) ∧
    (((fl.wLink = "" ∨ toDel fl.wLink = true) ∧ fl.dLink ≠ "" ∧
        toDel fl.dLink = false) →
      (processCandidate toDel noFail file fl).ops = [MOp.move file fl.dLink]) ∧
    (((fl.wLink = "" ∨ toDel fl.wLink = true) ∧
        (fl.dLink = "" ∨ toDel fl.dLink = true)) →
      (processCandidate toDel noFail file fl).ops = [MOp.remove file]) := by
  have hdf2 : file ≠ fl.dLink := fun e => hdf e.symm
  have hwd2 : fl.dLink ≠ fl.wLink := fun e => hwd e.symm
  cases hwt : toDel fl.wLink <;> cases hdt : toDel fl.dLink <;>
    by_cases hw0 : fl.wLink = "" <;> by_cases hd0 : fl.dLink = "" <;>
    simp_all [processCandidate, noFail]

/-- Witness for `C2_candidate_disposition` on a concrete candidate whose
weekly and daily links both survive. -/
theorem C2_candidate_disposition_witness :
    ((("weekly/w1" : String) ≠ "" ∧ (fun _ => false : String → Bool) "weekly/w1" = false) →
      (processCandidate (fun _ => false) noFail "monthly/a"
          ⟨"weekly/w1", "daily/d1"⟩).ops.head?
          = some (MOp.move "monthly/a" "weekly/w1") ∧
      MOp.remove "monthly/a" ∉ (processCandidate (fun _ => false) noFail "monthly/a"
          ⟨"weekly/w1", "daily/d1"⟩).ops ∧
      MOp.move "monthly/a" "daily/d1" ∉ (processCandidate (fun _ => false) noFail "monthly/a"
          ⟨"weekly/w1", "daily/d1"⟩).ops) ∧
    ((("weekly/w1" : String) ≠ "" ∧ (fun _ => false : String → Bool) "weekly/w1" = false ∧
        ("daily/d1" : String) ≠ "" ∧ (fun _ => false : String → Bool) "daily/d1" = false) →
      MOp.symlink (goRel (pathDir "daily/d1") "weekly/w1") "daily/d1"
        ∈ (processCandidate (fun _ => false) noFail "monthly/a"
            ⟨"weekly/w1", "daily/d1"⟩).ops) ∧
    (((("weekly/w1" : String) = "" ∨ (fun _ => false : String → Bool) "weekly/w1" = true) ∧
        ("daily/d1" : String) ≠ "" ∧ (fun _ => false : String → Bool) "daily/d1" = false) →
      (processCandidate (fun _ => false) noFail "monthly/a"
          ⟨"weekly/w1", "daily/d1"⟩).ops = [MOp.move "monthly/a" "daily/d1"]) ∧
    (((("weekly/w1" : String) = "" ∨ (fun _ => false : String → Bool) "weekly/w1" = true) ∧
        (("daily/d1" : String) = "" ∨ (fun _ => false : String → Bool) "daily/d1" = true)) →
      (processCandidate (fun _ => false) noFail "monthly/a"
          ⟨"weekly/w1", "daily/d1"⟩).ops = [MOp.remove "monthly/a"]) :=
  C2_candidate_disposition (fun _ => false) "monthly/a"
    ⟨"weekly/w1", "daily/d1"⟩ (by decide) (by decide)

/-- C4 counterexample: with two candidates, when removing the old daily
symlink of the first fails, `deleteDescBackup` breaks out of the loop
(smb.go line 290): the second candidate is never removed, although an error
was accumulated — refuting that the engine always continues with all
remaining deletion candidates. -/
theorem C4_abort_counterexample :
    MOp.remove "monthly/b" ∉ (deleteDescReconcile exCands4 exFails4).1 ∧
    (deleteDescReconcile exCands4 exFails4).2 ≠ [] := by
  decide

/-- C4 (amended): per-mutation errors are accumulated and returned as a
multi-error, and the engine processes every deletion candidate — provided
no removal of an old daily symlink during a rewrite fails; such a failure
is accumulated but aborts the pass.  The accumulated errors are exactly the
failed operations of the emitted trace, and the returned error is nil iff
no operation failed. -/
theorem C4_error_accumulation (cands : List (String × FileLinks))
    (fails : MOp → Bool)
    (h : ∀ f fl, (f, fl) ∈ cands →
      fl.wLink ≠ "" → candKeys cands fl.wLink = false →
      candKeys cands fl.dLink = false →
      fails (MOp.remove fl.dLink) = false) :
    (deleteDescReconcile cands fails).1
        = cands.flatMap
            (fun c => (processCandidate (candKeys cands) fails c.1 c.2).ops) ∧
    (deleteDescReconcile cands fails).2
        = (deleteDescReconcile cands fails).1.filter (fun op => fails op) ∧
    (errorOrNil (deleteDescReconcile cands fails).2 = none ↔
      ∀ op ∈ (deleteDescReconcile cands fails).1, fails op = false) := by
  have hr := reconcile_no_break (candKeys cands) fails cands h
  unfold deleteDescReconcile
  rw [hr]
  refine ⟨rfl, rfl, ?_⟩
  simp [errorOrNil, List.filter_eq_nil_iff, List.isEmpty_iff]

/-- Witness for `C4_error_accumulation` on the concrete two-candidate list
with no failing operation. -/
theorem C4_error_accumulation_witness :
    (deleteDescReconcile exCands4 noFail).1
        = exCands4.flatMap
            (fun c => (processCandidate (candKeys exCands4) noFail c.1 c.2).ops) ∧
    (deleteDescReconcile exCands4 noFail).2
        = (deleteDescReconcile exCands4 noFail).1.filter (fun op => noFail op) ∧
    (errorOrNil (deleteDescReconcile exCands4 noFail).2 = none ↔
      ∀ op ∈ (deleteDescReconcile exCands4 noFail).1, noFail op = false) :=
  C4_error_accumulation exCands4 noFail (fun _ _ _ _ _ _ => rfl)

/-- C8 counterexample: an execution of the reconciliation loop in which a
candidate without incoming links is iterated before a weekly promotion: its
removal precedes the move, refuting that all moves happen before any
removal within one rotation pass. -/
theorem C8_order_counterexample :
    noRemoveThenMove false (deleteDescReconcile exCands8 noFail).1 = false := by
  decide

/-- C8 (amended): the move-before-remove ordering holds within each single
candidate's processing (with all share operations succeeding): the
operation trace of one candidate splits into a removal-free prefix and a
move-free suffix.  Across distinct candidates the loop interleaves moves
and removals in map iteration order. -/
theorem C8_moves_before_removes (toDel : String → Bool) (file : String)
    (fl : FileLinks) :
    ∃ pre post,
      (processCandidate toDel noFail file fl).ops = pre ++ post ∧
      (∀ op ∈ pre, isRemoveOp op = false) ∧
      (∀ op ∈ post, isMove op = false) := by
  by_cases hw : fl.wLink ≠ "" ∧ toDel fl.wLink = false
  · by_cases hd : toDel fl.dLink = false
    · refine ⟨[MOp.move file fl.wLink],
        [MOp.remove fl.dLink,
         MOp.symlink (goRel (pathDir fl.dLink) fl.wLink) fl.dLink], ?_, ?_, ?_⟩
      · simp [processCandidate, noFail, hw, hd]
      · simp [isRemoveOp]
      · simp [isMove]
    · refine ⟨[MOp.move file fl.wLink], [], ?_, ?_, ?_⟩
      · simp [processCandidate, noFail, hw, hd]
      · simp [isRemoveOp]
      · simp
  · by_cases hd : fl.dLink ≠ "" ∧ toDel fl.dLink = false
    · refine ⟨[MOp.move file fl.dLink], [], ?_, ?_, ?_⟩
      · simp [processCandidate, noFail, hw, hd]
      · simp [isRemoveOp]
      · simp
    · refine ⟨[], [MOp.remove file], ?_, ?_, ?_⟩
      · simp [processCandidate, noFail, hw, hd]
      · simp
      · simp [isMove]

/-- C9: with rotation disabled by config, `DeleteOldBackups` returns nil
immediately for every job type and pass, issues no share mutation, and so
leaves the remote files and symlinks unchanged. -/
theorem C9_rotation_disabled (isIncFiles : Bool)
    (descPass incPass : List MOp × List MOp) (st : FS) :
    DeleteOldBackups false isIncFiles descPass incPass = ([], []) ∧
    errorOrNil (DeleteOldBackups false isIncFiles descPass incPass).2 = none ∧
    applyOps st (DeleteOldBackups false isIncFiles descPass incPass).1 = st := by
  simp [DeleteOldBackups, applyOps, errorOrNil]

/-- C5 counterexample: with current month 3 and retention of 3 months the
difference is zero — not negative — yet `deleteIncBackup` operates on the
previous year's directory (smb.go line 344 tests `lastMonth > 0`, wrapping
also at zero), refuting that wrapping happens only for a negative
difference. -/
theorem C5_wrap_counterexample :
    (0 : Int) ≤ 3 - 3 ∧
    (incYearSel 3 3 "year_cur" "year_prev").1 = "year_prev" ∧
    ("year_prev" : String) ≠ "year_cur" := by
  decide

theorem isDigit_ne_low (c : Char) (h : c.isDigit = true) : ¬(c = '_') := by
  intro e; subst e; exact absurd h (by decide)

theorem isDigit_ne_minus (c : Char) (h : c.isDigit = true) : ¬(c = '-') := by
  intro e; subst e; exact absurd h (by decide)

theorem isDigit_ne_plus (c : Char) (h : c.isDigit = true) : ¬(c = '+') := by
  intro e; subst e; exact absurd h (by decide)

theorem matchesMonthDir_monthName (d1 d2 : Char)
    (h1 : d1.isDigit = true) (h2 : d2.isDigit = true) :
    matchesMonthDir (monthName d1 d2) = true := by
  simp [matchesMonthDir, monthName, monthPatSub, monthPatAt, h1, h2]

theorem matchesMonthDir_ne_empty (d : String) (h : matchesMonthDir d = true) :
    d ≠ "" := by
  intro e; subst e; exact absurd h (by decide)

theorem dirMonthOf_monthName (d1 d2 : Char)
    (h1 : d1.isDigit = true) (h2 : d2.isDigit = true) :
    dirMonthOf (monthName d1 d2)
      = ((d1.toNat - 48) * 10 + (d2.toNat - 48) : Int) := by
  have n1 := isDigit_ne_low d1 h1
  have n2 := isDigit_ne_low d2 h2
  have em : chSplit '_' ['m', 'o', 'n', 't', 'h', '_', d1, d2]
      = [['m', 'o', 'n', 't', 'h'], [d1, d2]] := by
    simp [chSplit, n1, n2]
  have esp : splitParts '_' (monthName d1 d2)
      = ["month", String.mk [d1, d2]] := by
    simp [splitParts, monthName, em]
  rw [dirMonthOf, esp]
  have hg : goAtoi (String.mk [d1, d2]) = ((digitsVal [d1, d2] : Nat) : Int) := by
    simp [goAtoi, goAtoiCh, isDigit_ne_minus d1 h1, isDigit_ne_plus d1 h1, h1, h2]
  have hgd : (["month", String.mk [d1, d2]] : List String).getD 1 ""
      = String.mk [d1, d2] := rfl
  rw [hgd, hg]
  have hb1 : 48 ≤ d1.toNat := by simp [Char.isDigit] at h1; exact h1.1
  have hb2 : 48 ≤ d2.toNat := by simp [Char.isDigit] at h2; exact h2.1
  simp only [digitsVal, List.foldl]
  push_cast [hb1, hb2]
  ring

theorem pathJoin2_right_inj (a : String) (b c : String)
    (hb : b ≠ "") (hc : c ≠ "") (h : pathJoin2 a b = pathJoin2 a c) : b = c := by
  by_cases ha : a = ""
  · simpa [pathJoin2, ha, hb, hc] using h
  · simp only [pathJoin2, ha, if_neg, hb, hc, if_false] at h
    have hd : (a ++ "/" ++ b).data = (a ++ "/" ++ c).data := by rw [h]
    simp only [String.data_append] at hd
    have hbc : b.data = c.data := List.append_cancel_left hd
    exact congrArg String.mk hbc

/-- C5 (amended): incremental rotation wraps into the previous year's
directory exactly when `currentMonth - retention.months` is zero or
negative (adding 12 to the cutoff); a well-formed `month_<dd>` entry of the
applicable year directory is removed iff its numeric month is strictly
below the cutoff; and with `full = true` the whole OFS subtree is removed,
so no file below the OFS directory remains. -/
theorem C5_inc_rotation (backupPath ofsPart year prevYear : String)
    (moy months : Int) (dirs : List String) (fails : MOp → Bool) (st : FS)
    (d1 d2 : Char) (hd1 : d1.isDigit = true) (hd2 : d2.isDigit = true) :
    ((incYearSel moy months year prevYear).1
        = if moy - months ≤ 0 then prevYear else year) ∧
    ((incYearSel moy months year prevYear).2
        = moy - months + (if moy - months ≤ 0 then 12 else 0)) ∧
    (MOp.removeAll
        (pathJoin2 (incBackupDir backupPath ofsPart moy months year prevYear)
          (monthName d1 d2))
        ∈ (deleteIncBackup backupPath ofsPart false moy months year prevYear
            dirs fails).1
      ↔ monthName d1 d2 ∈ dirs ∧
          (((d1.toNat - 48) * 10 + (d2.toNat - 48) : Int)
            < (incYearSel moy months year prevYear).2)) ∧
    ((deleteIncBackup backupPath ofsPart true moy months year prevYear
        dirs fails).1
      = [MOp.removeAll (pathJoin2 backupPath ofsPart)]) ∧
    (∀ q ∈ (applyOps st (deleteIncBackup backupPath ofsPart true moy months
        year prevYear dirs fails).1).files,
      isUnder (pathJoin2 backupPath ofsPart) q = false) := by
  have hmn : monthName d1 d2 ≠ "" := by
    simp [monthName]
    intro e
    exact absurd (congrArg String.data e) (by simp)
  refine ⟨?_, ?_, ?_, ?_, ?_⟩
  · by_cases hpos : moy - months > 0
    · have h2 : ¬(moy - months ≤ 0) := by omega
      simp [incYearSel, hpos, h2]
    · have h2 : moy - months ≤ 0 := by omega
      simp [incYearSel, hpos, h2]
  · by_cases hpos : moy - months > 0
    · have h2 : ¬(moy - months ≤ 0) := by omega
      simp [incYearSel, hpos, h2]
    · have h2 : moy - months ≤ 0 := by omega
      simp [incYearSel, hpos, h2]
  · simp only [deleteIncBackup, if_neg Bool.false_ne_true, List.mem_filterMap]
    constructor
    · rintro ⟨d, hd, he⟩
      by_cases hc : matchesMonthDir d = true ∧
          dirMonthOf d < (incYearSel moy months year prevYear).2
      · rw [if_pos hc] at he
        have hjoin := Option.some.inj he
        have hde : d = monthName d1 d2 :=
          pathJoin2_right_inj _ _ _
            (matchesMonthDir_ne_empty d hc.1) hmn
            (MOp.removeAll.inj hjoin)
        subst hde
        refine ⟨hd, ?_⟩
        have hlt := hc.2
        rwa [dirMonthOf_monthName d1 d2 hd1 hd2] at hlt
      · rw [if_neg hc] at he
        exact absurd he (by simp)
    · rintro ⟨hmem, hlt⟩
      refine ⟨monthName d1 d2, hmem, ?_⟩
      have hcond : matchesMonthDir (monthName d1 d2) = true ∧
          dirMonthOf (monthName d1 d2)
            < (incYearSel moy months year prevYear).2 := by
        refine ⟨matchesMonthDir_monthName d1 d2 hd1 hd2, ?_⟩
        rw [dirMonthOf_monthName d1 d2 hd1 hd2]
        exact hlt
      rw [if_pos hcond]
  · simp [deleteIncBackup]
  · intro q hq
    simp only [deleteIncBackup, if_pos rfl, applyOps, List.foldl, applyOp] at hq
    simp only [List.mem_filter] at hq
    simpa using hq.2

/-- Witness for `C5_inc_rotation` at month 5, retention 2 months, dir
listing with months 01 and 04, name `month_02`. -/
theorem C5_inc_rotation_witness :
    ((incYearSel 5 2 "year_2025" "year_2024").1
        = if (5 : Int) - 2 ≤ 0 then "year_2024" else "year_2025") ∧
    ((incYearSel 5 2 "year_2025" "year_2024").2
        = 5 - 2 + (if (5 : Int) - 2 ≤ 0 then 12 else 0)) ∧
    (MOp.removeAll
        (pathJoin2 (incBackupDir "backup" "ofs" 5 2 "year_2025" "year_2024")
          (monthName '0' '2'))
        ∈ (deleteIncBackup "backup" "ofs" false 5 2 "year_2025" "year_2024"
            ["month_01", "month_04"] noFail).1
      ↔ monthName '0' '2' ∈ ["month_01", "month_04"] ∧
          ((('0'.toNat - 48) * 10 + ('2'.toNat - 48) : Int)
            < (incYearSel 5 2 "year_2025" "year_2024").2)) ∧
    ((deleteIncBackup "backup" "ofs" true 5 2 "year_2025" "year_2024"
        ["month_01", "month_04"] noFail).1
      = [MOp.removeAll (pathJoin2 "backup" "ofs")]) ∧
    (∀ q ∈ (applyOps ⟨["backup/ofs/year_2025/month_01/a.tar"], []⟩
        (deleteIncBackup "backup" "ofs" true 5 2 "year_2025" "year_2024"
          ["month_01", "month_04"] noFail).1).files,
      isUnder (pathJoin2 "backup" "ofs") q = false) :=
  C5_inc_rotation "backup" "ofs" "year_2025" "year_2024" 5 2
    ["month_01", "month_04"] noFail ⟨["backup/ofs/year_2025/month_01/a.tar"], []⟩
    '0' '2' (by decide) (by decide)

theorem foldl_upStep_links (p : String) (acc : Option String)
    (links : List (String × String)) :
    List.foldl (upStep p) acc
      (links.flatMap
        (fun l => [DOp.mkdirAll (pathDir l.1), DOp.symlinkOp l.2 l.1]))
      = acc := by
  induction links generalizing acc with
  | nil => rfl
  | cons l ls ih => simp [List.flatMap_cons, upStep, ih]

/-- C3: for an incremental-files delivery (non-empty metadata destination),
`DeliveryBackup` never uploads anything to the computed metadata
destination path: the sidecar is uploaded to the backup destination
(smb.go line 113 passes `bakDstPath` instead of `mtdDstPath`) and then
overwritten there by the artifact, so after delivery the metadata path
holds nothing and the pair is not co-located, contradicting the documented
both-or-neither invariant — a slip in the code, since `mtdDstPath` is
computed and tested but never used as a destination. -/
theorem C3_inc_sidecar_misplaced (tmp bakDst mtdDst : String)
    (links : List (String × String))
    (hm : mtdDst ≠ "") (hne : mtdDst ≠ bakDst) :
    uploadedAt (deliveryBackupOps tmp bakDst mtdDst links) mtdDst = none ∧
    (∀ op ∈ deliveryBackupOps tmp bakDst mtdDst links,
       op ≠ DOp.upload (tmp ++ ".inc") mtdDst) ∧
    DOp.upload (tmp ++ ".inc") bakDst ∈ deliveryBackupOps tmp bakDst mtdDst links ∧
    uploadedAt (deliveryBackupOps tmp bakDst mtdDst links) bakDst = some tmp := by
  have hb : bakDst ≠ mtdDst := fun e => hne e.symm
  refine ⟨?_, ?_, ?_, ?_⟩
  · simp only [deliveryBackupOps, if_pos hm, uploadedAt, copyOps,
      List.append_assoc, List.foldl_append, List.foldl_cons, List.foldl_nil]
    simp [upStep, hb, foldl_upStep_links]
  · intro op hop
    simp only [deliveryBackupOps, if_pos hm, copyOps, List.mem_append,
      List.mem_cons, List.mem_flatMap, List.not_mem_nil] at hop
    rcases hop with (h | h) | h
    · rcases h with h | h | h
      · simp [h]
      · simp [h, hb]
      · cases h
    · rcases h with h | h | h
      · simp [h]
      · simp [h, hb]
      · cases h
    · obtain ⟨l, _, hl⟩ := h
      rcases hl with h | h | h
      · simp [h]
      · simp [h]
      · cases h
  · simp [deliveryBackupOps, if_pos hm, copyOps]
  · simp only [deliveryBackupOps, if_pos hm, uploadedAt, copyOps,
      List.append_assoc, List.foldl_append, List.foldl_cons, List.foldl_nil]
    simp [upStep, foldl_upStep_links]

/-- Witness for `C3_inc_sidecar_misplaced` at a concrete incremental
delivery. -/
theorem C3_inc_sidecar_misplaced_witness :
    uploadedAt (deliveryBackupOps "tmp/ofs/a.tar"
        "ofs/year_2025/month_05/day_01/a.tar"
        "ofs/year_2025/month_05/day_01/a.tar.inc" [])
        "ofs/year_2025/month_05/day_01/a.tar.inc" = none ∧
    (∀ op ∈ deliveryBackupOps "tmp/ofs/a.tar"
        "ofs/year_2025/month_05/day_01/a.tar"
        "ofs/year_2025/month_05/day_01/a.tar.inc" [],
       op ≠ DOp.upload ("tmp/ofs/a.tar" ++ ".inc")
         "ofs/year_2025/month_05/day_01/a.tar.inc") ∧
    DOp.upload ("tmp/ofs/a.tar" ++ ".inc") "ofs/year_2025/month_05/day_01/a.tar"
      ∈ deliveryBackupOps "tmp/ofs/a.tar" "ofs/year_2025/month_05/day_01/a.tar"
          "ofs/year_2025/month_05/day_01/a.tar.inc" [] ∧
    uploadedAt (deliveryBackupOps "tmp/ofs/a.tar"
        "ofs/year_2025/month_05/day_01/a.tar"
        "ofs/year_2025/month_05/day_01/a.tar.inc" [])
        "ofs/year_2025/month_05/day_01/a.tar" = some "tmp/ofs/a.tar" :=
  C3_inc_sidecar_misplaced "tmp/ofs/a.tar" "ofs/year_2025/month_05/day_01/a.tar"
    "ofs/year_2025/month_05/day_01/a.tar.inc" [] (by decide) (by decide)

theorem infix_flatMap_of_mem {α β : Type} (f : α → List β) (l : List α) (a : α)
    (h : a ∈ l) : f a <:+: l.flatMap f := by
  induction l with
  | nil => cases h
  | cons b bs ih =>
    rcases List.mem_cons.mp h with he | hm
    · subst he
      exact ⟨[], bs.flatMap f, by simp [List.flatMap_cons]⟩
    · obtain ⟨s, t, hst⟩ := ih hm
      exact ⟨f b ++ s, t, by simp [List.flatMap_cons, ← hst]⟩

/-- C6: every `DoBackup` run ends with exactly one unconditional trailing
Delivery call (the last event, issued regardless of the flag and of earlier
outcomes); with `deferredCopying = false` there is additionally one
Delivery call per produced artifact, issued immediately after the dump
event of that target; with the flag set the trailing call is the only
one. -/
theorem C6_delivery_calls (deferred : Bool) (targets : List TargetRun) :
    (doBackupEvents deferred targets).getLast? = some JEv.deliveryCall ∧
    ((doBackupEvents deferred targets).count JEv.deliveryCall
        = (if deferred then 0
           else (targets.filter
              (fun t => artifactSize t.outcome ≠ none)).length) + 1) ∧
    (deferred = false → ∀ t ∈ targets, artifactSize t.outcome ≠ none →
      [JEv.dumpOk t.ofs, JEv.deliveryCall] <:+: doBackupEvents deferred targets) := by
  refine ⟨?_, ?_, ?_⟩
  · rw [doBackupEvents, List.getLast?_concat]
  · induction targets with
    | nil => cases deferred <;> simp [doBackupEvents]
    | cons t ts ih =>
      rcases t with ⟨ofs, oc⟩
      cases oc <;> cases deferred <;>
        simp_all [doBackupEvents, List.flatMap_cons, List.count_append,
          targetEvents, artifactSize, List.count_cons]
  · intro hdef t ht hsz
    subst hdef
    have hi : targetEvents false t <:+: targets.flatMap (targetEvents false) :=
      infix_flatMap_of_mem _ targets t ht
    have he : targetEvents false t = [JEv.dumpOk t.ofs, JEv.deliveryCall] := by
      rcases t with ⟨ofs, oc⟩
      cases oc <;> simp_all [targetEvents, artifactSize]
    rw [he] at hi
    obtain ⟨s, u, hsu⟩ := hi
    exact ⟨s, u ++ [JEv.deliveryCall], by
      rw [doBackupEvents, ← hsu]; simp⟩

/-- Witness for `C6_delivery_calls` on a two-target run with one produced
artifact and one failed dump, immediate copying. -/
theorem C6_delivery_calls_witness :
    (doBackupEvents false [⟨"t1", .success 10 5⟩, ⟨"t2", .dumpFail 7⟩]).getLast?
        = some JEv.deliveryCall ∧
    ((doBackupEvents false [⟨"t1", .success 10 5⟩, ⟨"t2", .dumpFail 7⟩]).count
          JEv.deliveryCall
        = (if false then 0
           else (([⟨"t1", .success 10 5⟩, ⟨"t2", .dumpFail 7⟩] : List TargetRun).filter
              (fun t => artifactSize t.outcome ≠ none)).length) + 1) ∧
    (false = false → ∀ t ∈ ([⟨"t1", .success 10 5⟩, ⟨"t2", .dumpFail 7⟩] : List TargetRun),
      artifactSize t.outcome ≠ none →
      [JEv.dumpOk t.ofs, JEv.deliveryCall]
        <:+: doBackupEvents false [⟨"t1", .success 10 5⟩, ⟨"t2", .dumpFail 7⟩]) :=
  C6_delivery_calls false [⟨"t1", .success 10 5⟩, ⟨"t2", .dumpFail 7⟩]

theorem lookup_doBackupMetrics (ts : Int) (targets : List TargetRun)
    (t : TargetRun) (ht : t ∈ targets)
    (hnd : (targets.map TargetRun.ofs).Nodup) :
    (doBackupMetrics ts targets).lookup t.ofs
      = some (targetMetrics ts t.outcome) := by
  induction targets with
  | nil => cases ht
  | cons u us ih =>
    simp only [List.map_cons, List.nodup_cons] at hnd
    rcases List.mem_cons.mp ht with he | hm
    · subst he
      simp [doBackupMetrics, List.lookup]
    · have hne : (t.ofs == u.ofs) = false := by
        simp only [beq_eq_false_iff_ne, ne_eq]
        intro e
        exact hnd.1 (e ▸ List.mem_map_of_mem TargetRun.ofs hm)
      simp only [doBackupMetrics, List.map_cons, List.lookup, hne]
      simpa [doBackupMetrics] using ih hm hnd.2

theorem errCount_eq (targets : List TargetRun) :
    (targets.map (fun t => targetErrCount t.outcome)).sum
      = (targets.filter (fun u => artifactSize u.outcome = none)).length := by
  induction targets with
  | nil => rfl
  | cons u us ih =>
    rcases u with ⟨ofs, oc⟩
    cases oc <;> simp_all [targetErrCount, artifactSize] <;> omega

/-- C7: per-target metric outcome of `DoBackup`.  Every target — also those
after a failed one — gets a final metric row; `BackupSize` equals the
artifact's byte length exactly when `BackupOk = 1`; a failed dump leaves
`BackupOk = 0` and `BackupSize = 0` while recording `BackupTime` and the
start timestamp; and the run's multi-error holds one entry per failed
target plus the delivery failures. -/
theorem C7_target_metrics (ts : Int) (targets : List TargetRun)
    (t : TargetRun) (deliveryErrs : Nat) (ht : t ∈ targets)
    (hnd : (targets.map TargetRun.ofs).Nodup) :
    (doBackupMetrics ts targets).lookup t.ofs
        = some (targetMetrics ts t.outcome) ∧
    (some (targetMetrics ts t.outcome).backupSize = artifactSize t.outcome
      ↔ (targetMetrics ts t.outcome).backupOk = 1) ∧
    (∀ e, t.outcome = .dumpFail e →
      (targetMetrics ts t.outcome).backupOk = 0 ∧
      (targetMetrics ts t.outcome).backupSize = 0 ∧
      (targetMetrics ts t.outcome).backupTimeMs = e ∧
      (targetMetrics ts t.outcome).backupTimestamp = ts) ∧
    (doBackupErrCount targets deliveryErrs
      = (targets.filter (fun u => artifactSize u.outcome = none)).length
          + deliveryErrs) := by
  refine ⟨lookup_doBackupMetrics ts targets t ht hnd, ?_, ?_, ?_⟩
  · cases hoc : t.outcome <;>
      simp [targetMetrics, artifactSize, initialMetrics]
  · intro e he
    rw [he]
    simp [targetMetrics, initialMetrics]
  · unfold doBackupErrCount
    congr 1
    exact errCount_eq targets

/-- Witness for `C7_target_metrics` at the failed target of a two-target
run. -/
theorem C7_target_metrics_witness :
    (doBackupMetrics 100 [⟨"t1", .success 10 5⟩, ⟨"t2", .dumpFail 7⟩]).lookup "t2"
        = some (targetMetrics 100 (.dumpFail 7)) ∧
    (some (targetMetrics 100 (.dumpFail 7)).backupSize
        = artifactSize (.dumpFail 7)
      ↔ (targetMetrics 100 (.dumpFail 7)).backupOk = 1) ∧
    (∀ e, (Outcome.dumpFail 7) = .dumpFail e →
      (targetMetrics 100 (.dumpFail 7)).backupOk = 0 ∧
      (targetMetrics 100 (.dumpFail 7)).backupSize = 0 ∧
      (targetMetrics 100 (.dumpFail 7)).backupTimeMs = e ∧
      (targetMetrics 100 (.dumpFail 7)).backupTimestamp = 100) ∧
    (doBackupErrCount [⟨"t1", .success 10 5⟩, ⟨"t2", .dumpFail 7⟩] 0
      = (([⟨"t1", .success 10 5⟩, ⟨"t2", .dumpFail 7⟩] : List TargetRun).filter
          (fun u => artifactSize u.outcome = none)).length + 0) :=
  C7_target_metrics 100 [⟨"t1", .success 10 5⟩, ⟨"t2", .dumpFail 7⟩]
    ⟨"t2", .dumpFail 7⟩ 0 (by decide) (by decide)

theorem psqlInitLoop_none_of_match (sources : List PgSource)
    (h : ∃ src ∈ sources, ∃ k ∈ src.extraKeys, matchPgdataKey k = true) :
    psqlInitLoop sources = none := by
  induction sources with
  | nil => obtain ⟨src, hs, _⟩ := h; cases hs
  | cons s ss ih =>
    obtain ⟨src, hs, k, hk, hm⟩ := h
    rcases List.mem_cons.mp hs with he | hmem
    · rw [he] at hk
      have ha : s.extraKeys.any matchPgdataKey = true :=
        List.any_eq_true.mpr ⟨k, hk, hm⟩
      simp [psqlInitLoop, ha]
    · by_cases h1 : s.extraKeys.any matchPgdataKey
      · simp [psqlInitLoop, h1]
      · by_cases h2 : s.connOk = false
        · simp [psqlInitLoop, h1, h2]
        · have hr := ih ⟨src, hmem, k, hk, hm⟩
          simp [psqlInitLoop, h1, h2, hr]

theorem psqlInitLoop_some_no_match (sources : List PgSource)
    (tgts : List PgTarget) (h : psqlInitLoop sources = some tgts) :
    ∀ t ∈ tgts, ∀ k ∈ t.extraKeys, matchPgdataKey k = false := by
  induction sources generalizing tgts with
  | nil =>
    simp only [psqlInitLoop, Option.some.injEq] at h
    subst h
    intro t ht
    cases ht
  | cons s ss ih =>
    by_cases h1 : s.extraKeys.any matchPgdataKey
    · simp [psqlInitLoop, h1] at h
    · by_cases h2 : s.connOk = false
      · simp [psqlInitLoop, h1, h2] at h
      · rcases hr : psqlInitLoop ss with _ | ts
        · simp [psqlInitLoop, h1, h2, hr] at h
        · simp [psqlInitLoop, h1, h2, hr] at h
          subst h
          intro t ht k hk
          rcases List.mem_cons.mp ht with he | hmem
          · subst he
            simp only [List.any_eq_true, not_exists, not_and] at h1
            cases hmk : matchPgdataKey k
            · rfl
            · exact absurd hmk (h1 k hk)
          · exact ih ts hr t hmem k hk

/-- C10: if any source carries an extra key matching `(-D|--pgdata=)`,
psql_physical `Init` returns a nil job with an error (whatever the probe
and connection outcomes); conversely any job `Init` returns carries no
matching key in any target, so every matching argument of the
`pg_basebackup` command line built by `createTmpBackup` is one of the
generated arguments — a user pgdata override can never reach it. -/
theorem C10_pgdata_forbidden (probesOk : Bool) (sources : List PgSource) :
    ((∃ src ∈ sources, ∃ k ∈ src.extraKeys, matchPgdataKey k = true) →
      psqlInit probesOk sources = none) ∧
    (∀ tgts, psqlInit probesOk sources = some tgts →
      ∀ t ∈ tgts, ∀ k ∈ t.extraKeys, matchPgdataKey k = false) ∧
    (∀ tgts, psqlInit probesOk sources = some tgts →
      ∀ t ∈ tgts, ∀ connUrl tmpPath rl,
        ∀ a ∈ pgBasebackupArgs t.extraKeys connUrl tmpPath rl,
          matchPgdataKey a = true → a ∈ pgGenArgs connUrl tmpPath rl) := by
  refine ⟨?_, ?_, ?_⟩
  · intro h
    unfold psqlInit
    by_cases hp : probesOk = false
    · simp [hp]
    · simp [hp, psqlInitLoop_none_of_match sources h]
  · intro tgts h
    unfold psqlInit at h
    by_cases hp : probesOk = false
    · simp [hp] at h
    · rw [if_neg hp] at h
      exact psqlInitLoop_some_no_match sources tgts h
  · intro tgts h t ht connUrl tmpPath rl a ha hm
    unfold psqlInit at h
    by_cases hp : probesOk = false
    · simp [hp] at h
    · rw [if_neg hp] at h
      rcases List.mem_append.mp ha with hl | hr
      · exact absurd hm (by
          rw [psqlInitLoop_some_no_match sources tgts h t ht a hl]
          simp)
      · exact hr

/-- Witness for `C10_pgdata_forbidden` on a single source carrying a
`--pgdata=` override. -/
theorem C10_pgdata_forbidden_witness :
    ((∃ src ∈ ([⟨"db1", ["--pgdata=/data"], true, false⟩] : List PgSource),
        ∃ k ∈ src.extraKeys, matchPgdataKey k = true) →
      psqlInit true [⟨"db1", ["--pgdata=/data"], true, false⟩] = none) ∧
    (∀ tgts, psqlInit true [⟨"db1", ["--pgdata=/data"], true, false⟩] = some tgts →
      ∀ t ∈ tgts, ∀ k ∈ t.extraKeys, matchPgdataKey k = false) ∧
    (∀ tgts, psqlInit true [⟨"db1", ["--pgdata=/data"], true, false⟩] = some tgts →
      ∀ t ∈ tgts, ∀ connUrl tmpPath rl,
        ∀ a ∈ pgBasebackupArgs t.extraKeys connUrl tmpPath rl,
          matchPgdataKey a = true → a ∈ pgGenArgs connUrl tmpPath rl) :=
  C10_pgdata_forbidden true [⟨"db1", ["--pgdata=/data"], true, false⟩]

end NxsBackup
